import Mathlib

/-!
Verification of the Ensemble-EVT OOD-detection engine (src/predict.py).

Shallow embedding conventions:
* NumPy floats are modelled by `PyFloat`: a finite rational or one of the
  non-finite values NaN / +Inf / -Inf.  Arithmetic that the code performs
  only after an explicit finiteness check is carried out on the rational
  payload.
* External numeric collaborators (the BERT classifier with its softmax,
  and SciPy's GEV fitting `stats.genextreme.fit` / quantile function
  `stats.genextreme.ppf`, which are iterative numeric solvers) are modelled
  as oracle functions gathered in the `Oracles` structure.  A `gevFit`
  result of `none` models the solver raising an exception (the
  `try ... except` in `fit_evt_models_robust`).
* Python dictionaries keyed by class id are modelled as functions
  `Nat → Option _`; a key absent from the dict is `none`.
-/

unseal Rat.mul Rat.add Rat.sub Rat.inv

namespace EnsembleEVT

/-- Model of a Python / NumPy floating point value: a finite value
(modelled by a rational) or one of the non-finite values. -/
inductive PyFloat where
  | fin (q : ℚ)
  | nan
  | inf
  | ninf
deriving DecidableEq

/-- `np.isnan(x) or np.isinf(x)` — the invalidity test used throughout
`predict.py`. -/
def PyFloat.isInvalid : PyFloat → Bool
  | .fin _ => false
  | _ => true

/-! ## Loss Collector — `compute_loss_safe` (predict.py lines 25-64) -/

/-- Outcome of one iteration of the loop body of `compute_loss_safe`
for a single example: either the model call raised an exception
(`except Exception` branch, line 51) or it produced a float loss value. -/
inductive LossStep where
  | raise
  | val (v : PyFloat)
deriving DecidableEq

/-- The loss extracted from one example, if any: `none` when the
computation raised or the value is NaN/Inf (both cause `continue`
with `skipped_count += 1`). -/
def lossOf : LossStep → Option PyFloat
  | .raise => none
  | .val v => if v.isInvalid then none else some v

/-- `compute_loss_safe` (lines 25-64): collect the valid losses in order;
if none survived, return the sentinel `[10.0]`. -/
def compute_loss_safe (data : List LossStep) : List PyFloat :=
  let losses := data.filterMap lossOf
  if losses.isEmpty then [PyFloat.fin 10] else losses

/-- The `skipped_count` counter of `compute_loss_safe`. -/
def skipped_count (data : List LossStep) : Nat :=
  data.countP (fun s => (lossOf s).isNone)

/-- Number of examples whose loss was kept. -/
def valid_count (data : List LossStep) : Nat :=
  (data.filterMap lossOf).length

/-! ## Oracles for the external numeric collaborators -/

/-- External collaborators of the engine, as oracle functions.  Sentences
are identified by a `Nat` id (tokenisation is opaque to the core).
`classifierProbs s` is the softmax row `tf.nn.softmax(classifier.predict(...))[0]`
for sentence `s`; `classifierLogits s` is the raw logits row used by
`predict`.  `gevFit` and `gevPpf` model `stats.genextreme.fit` and
`stats.genextreme.ppf`; `gevFit` returning `none` models the fit raising. -/
structure Oracles where
  classifierProbs : Nat → List ℚ
  classifierLogits : Nat → List ℚ
  gevFit : List ℚ → Option (ℚ × ℚ × ℚ)
  gevPpf : ℚ → ℚ × ℚ × ℚ → ℚ

/-- `np.max` of a row (0 on an empty row; the code never applies it to an
empty row since softmax rows are non-empty). -/
def listMax : List ℚ → ℚ
  | [] => 0
  | x :: xs => xs.foldl max x

/-- `np.min` of a row (0 on an empty row). -/
def listMin : List ℚ → ℚ
  | [] => 0
  | x :: xs => xs.foldl min x

/-! ## Decision Procedure — `predict` (predict.py lines 239-261) -/

/-- `np.argmax` over a row: index of the first occurrence of the maximum.
`argmaxFrom i best bestVal xs` scans `xs` whose head sits at index `i`,
with current best index `best` holding value `bestVal`. -/
def argmaxFrom : Nat → Nat → ℚ → List ℚ → Nat
  | _, best, _, [] => best
  | i, best, bestVal, x :: xs =>
    if bestVal < x then argmaxFrom (i + 1) i x xs
    else argmaxFrom (i + 1) best bestVal xs

/-- `np.argmax(row)`: first index attaining the maximum (0 on empty input,
where NumPy would raise — never reached by the code on classifier rows). -/
def argmaxRow : List ℚ → Nat
  | [] => 0
  | x :: xs => argmaxFrom 1 0 x xs

/-- `predict` (lines 239-261): walk `zip(losses, sentences)`; an example
with loss at or below the threshold gets the classifier argmax label,
otherwise the reserved `ood_label`. -/
def predict (O : Oracles) (threshold : ℚ) (ood_label : Nat) :
    List ℚ → List Nat → List Nat
  | loss :: losses, sen :: sens =>
    (if loss ≤ threshold then argmaxRow (O.classifierLogits sen) else ood_label)
      :: predict O threshold ood_label losses sens
  | _, _ => []

/-! ## Ensemble Score Builder and per-class grouping
(`fit_evt_models_robust`, predict.py lines 136-161) -/

/-- The ensemble score `0.5 * (1 - max_prob) + 0.5 * loss` (line 152). -/
def ensembleScore (maxProb loss : ℚ) : ℚ :=
  1 / 2 * (1 - maxProb) + 1 / 2 * loss

/-- The list `class_to_samples[c]` built by the grouping loop of
`fit_evt_models_robust` (lines 138-161): walk `zip(losses, sentences,
true_classes)`; an example with NaN/Inf loss is skipped (line 140),
otherwise its ensemble score is appended to its true class's list.
The second validity check (line 155, on `ood_score`) cannot fire in the
rational model: a score built from finite inputs is finite. -/
def classScores (O : Oracles) :
    List PyFloat → List Nat → List Nat → Nat → List ℚ
  | loss :: losses, sen :: sens, cls :: clss, c =>
    let rest := classScores O losses sens clss c
    match loss with
    | .fin q =>
      if cls = c then
        ensembleScore (listMax (O.classifierProbs sen)) q :: rest
      else rest
    | _ => rest
  | _, _, _, _ => []

/-! ## `np.percentile` with linear interpolation -/

/-- Ascending sort, as performed internally by `np.percentile`. -/
def sortedScores (l : List ℚ) : List ℚ :=
  l.insertionSort (· ≤ ·)

/-- The integer part of the fractional rank `q / 100 * (n - 1)` used by
linear interpolation. -/
def rankIndex (s : List ℚ) (q : ℚ) : Nat :=
  (Int.floor (q / 100 * ((s.length : ℚ) - 1))).toNat

/-- `np.percentile` on an already sorted list, with NumPy's default linear
interpolation: the value at fractional rank `q / 100 * (n - 1)`. -/
def percentileSorted (s : List ℚ) (q : ℚ) : ℚ :=
  let h : ℚ := q / 100 * ((s.length : ℚ) - 1)
  let i : Nat := rankIndex s q
  let lo := s.getD i 0
  let hi := s.getD (i + 1) lo
  lo + (h - (i : ℚ)) * (hi - lo)

/-- `np.percentile(l, q)` (default linear interpolation). -/
def percentile (l : List ℚ) (q : ℚ) : ℚ :=
  percentileSorted (sortedScores l) q

/-! ## Robust EVT fitter (`fit_evt_models_robust`, lines 163-225) -/

/-- `lower_bound = q1 - 1.5 * iqr` (lines 178-181). -/
def lowerBound (s : List ℚ) : ℚ :=
  percentile s 25 - 3 / 2 * (percentile s 75 - percentile s 25)

/-- `upper_bound = q3 + 1.5 * iqr` (line 182). -/
def upperBound (s : List ℚ) : ℚ :=
  percentile s 75 + 3 / 2 * (percentile s 75 - percentile s 25)

/-- `scores_clean`: only the scores inside `[lower_bound, upper_bound]`
are kept (lines 185-187). -/
def trimmedScores (s : List ℚ) : List ℚ :=
  s.filter (fun x => decide (lowerBound s ≤ x) && decide (x ≤ upperBound s))

/-- One iteration of the per-class loop of `fit_evt_models_robust`
(lines 167-223), on the list of valid ensemble scores of one class.
Returns the threshold recorded for the class together with the `evt_models`
entry recorded for it (`none` when no model is stored).  The `try/except`
around the GEV fit is modelled by `Oracles.gevFit` returning `none`. -/
def processClass (O : Oracles) (fpr : ℚ) (scores : List ℚ) :
    ℚ × Option (ℚ × ℚ × ℚ) :=
  if scores.length < 10 then
    (percentile scores 95, none)
  else
    let clean := trimmedScores scores
    if clean.length < 5 then
      (percentile scores 95, none)
    else
      match O.gevFit (clean.map (fun x => -x)) with
      | none => (percentile clean (100 * (1 - fpr)), none)
      | some (shape, loc, scale) =>
        if 2 < |shape| ∨ scale ≤ 0 ∨ 10 < scale then
          (percentile clean (100 * (1 - fpr)), none)
        else
          -- the model entry is recorded (line 205) before the threshold
          -- sanity check (lines 210-217), so it survives a discarded
          -- threshold
          let threshold := - O.gevPpf (1 - fpr) (shape, loc, scale)
          if threshold < listMin clean ∨ listMax scores * 2 < threshold then
            (percentile clean (100 * (1 - fpr)), some (shape, loc, scale))
          else
            (threshold, some (shape, loc, scale))

/-- The `thresholds` dictionary returned by `fit_evt_models_robust`: a class
has an entry exactly when it received at least one valid score. -/
def robustThreshold (O : Oracles) (losses : List PyFloat) (sentences : List Nat)
    (true_classes : List Nat) (fpr : ℚ) (c : Nat) : Option ℚ :=
  let s := classScores O losses sentences true_classes c
  if s.isEmpty then none else some (processClass O fpr s).1

/-- The `evt_models` dictionary returned by `fit_evt_models_robust`. -/
def robustModel (O : Oracles) (losses : List PyFloat) (sentences : List Nat)
    (true_classes : List Nat) (fpr : ℚ) (c : Nat) : Option (ℚ × ℚ × ℚ) :=
  let s := classScores O losses sentences true_classes c
  if s.isEmpty then none else (processClass O fpr s).2

/-- `fit_evt_models_robust` (lines 122-225): returns the pair
`(thresholds, evt_models)`.  The unused `contamination_ratio` parameter of
the source is omitted (it never occurs in the function body). -/
def fit_evt_models_robust (O : Oracles) (losses : List PyFloat)
    (sentences : List Nat) (true_classes : List Nat) (fpr : ℚ) :
    (Nat → Option ℚ) × (Nat → Option (ℚ × ℚ × ℚ)) :=
  (robustThreshold O losses sentences true_classes fpr,
   robustModel O losses sentences true_classes fpr)

/-- The scores of a class after the trimming step of the robust fitter:
for a class with fewer than 10 samples no trimming is performed, so its
trimmed scores are its raw scores. -/
def classTrimmed (s : List ℚ) : List ℚ :=
  if s.length < 10 then s else trimmedScores s

/-! ## Helper lemmas: loss collector -/

theorem valid_add_skipped (data : List LossStep) :
    valid_count data + skipped_count data = data.length := by
  induction data with
  | nil => rfl
  | cons a l ih =>
    unfold valid_count skipped_count at *
    cases h : lossOf a <;> simp [List.filterMap_cons, List.countP_cons, h] <;> omega

theorem lossOf_fin {s : LossStep} {v : PyFloat} (h : lossOf s = some v) :
    ∃ q : ℚ, v = PyFloat.fin q := by
  cases s with
  | raise => simp [lossOf] at h
  | val w =>
    cases w with
    | fin q =>
      refine ⟨q, ?_⟩
      simpa [lossOf, PyFloat.isInvalid] using h.symm
    | nan => simp [lossOf, PyFloat.isInvalid] at h
    | inf => simp [lossOf, PyFloat.isInvalid] at h
    | ninf => simp [lossOf, PyFloat.isInvalid] at h

/-! ## Helper lemmas: decision procedure -/

theorem predict_length (O : Oracles) (t : ℚ) (ood : Nat) :
    ∀ (losses : List ℚ) (sens : List Nat),
      (predict O t ood losses sens).length = min losses.length sens.length := by
  intro losses
  induction losses with
  | nil => intro sens; cases sens <;> simp [predict]
  | cons l ls ih =>
    intro sens
    cases sens with
    | nil => simp [predict]
    | cons s ss => simp [predict, ih ss]; omega

theorem predict_getElem? (O : Oracles) (t : ℚ) (ood : Nat) :
    ∀ (losses : List ℚ) (sens : List Nat) (i : Nat),
      (predict O t ood losses sens)[i]? =
        losses[i]?.bind (fun l => sens[i]?.map
          (fun s => if l ≤ t then argmaxRow (O.classifierLogits s) else ood)) := by
  intro losses
  induction losses with
  | nil => intro sens i; cases sens <;> simp [predict]
  | cons l ls ih =>
    intro sens i
    cases sens with
    | nil => cases i <;> simp [predict]
    | cons s ss => cases i <;> simp [predict, ih]

/-! ## Helper lemmas: branch behaviour of the robust fitter -/

theorem processClass_lt10 (O : Oracles) (fpr : ℚ) (scores : List ℚ)
    (h : scores.length < 10) :
    processClass O fpr scores = (percentile scores 95, none) := by
  unfold processClass
  simp [h]

theorem processClass_lt5 (O : Oracles) (fpr : ℚ) (scores : List ℚ)
    (h10 : ¬ scores.length < 10) (h5 : (trimmedScores scores).length < 5) :
    processClass O fpr scores = (percentile scores 95, none) := by
  unfold processClass
  simp [h10, h5]

theorem processClass_fitFail (O : Oracles) (fpr : ℚ) (scores : List ℚ)
    (h10 : ¬ scores.length < 10) (h5 : ¬ (trimmedScores scores).length < 5)
    (hfit : O.gevFit ((trimmedScores scores).map (fun x => -x)) = none) :
    processClass O fpr scores =
      (percentile (trimmedScores scores) (100 * (1 - fpr)), none) := by
  unfold processClass
  simp [h10, h5, hfit]

theorem processClass_badParams (O : Oracles) (fpr : ℚ) (scores : List ℚ)
    (shape loc scale : ℚ)
    (h10 : ¬ scores.length < 10) (h5 : ¬ (trimmedScores scores).length < 5)
    (hfit : O.gevFit ((trimmedScores scores).map (fun x => -x))
      = some (shape, loc, scale))
    (hbad : 2 < |shape| ∨ scale ≤ 0 ∨ 10 < scale) :
    processClass O fpr scores =
      (percentile (trimmedScores scores) (100 * (1 - fpr)), none) := by
  unfold processClass
  simp [h10, h5, hfit, hbad]

theorem processClass_goodParams (O : Oracles) (fpr : ℚ) (scores : List ℚ)
    (shape loc scale : ℚ)
    (h10 : ¬ scores.length < 10) (h5 : ¬ (trimmedScores scores).length < 5)
    (hfit : O.gevFit ((trimmedScores scores).map (fun x => -x))
      = some (shape, loc, scale))
    (hgood : ¬ (2 < |shape| ∨ scale ≤ 0 ∨ 10 < scale)) :
    processClass O fpr scores =
      (if - O.gevPpf (1 - fpr) (shape, loc, scale) < listMin (trimmedScores scores)
          ∨ listMax scores * 2 < - O.gevPpf (1 - fpr) (shape, loc, scale)
       then percentile (trimmedScores scores) (100 * (1 - fpr))
       else - O.gevPpf (1 - fpr) (shape, loc, scale),
       some (shape, loc, scale)) := by
  unfold processClass
  simp only [h10, h5, hfit, hgood, if_false, if_neg, ite_false]
  split <;> simp

theorem robustThreshold_eq (O : Oracles) (losses : List PyFloat)
    (sents clss : List Nat) (fpr : ℚ) (c : Nat)
    (hne : classScores O losses sents clss c ≠ []) :
    robustThreshold O losses sents clss fpr c =
      some (processClass O fpr (classScores O losses sents clss c)).1 := by
  unfold robustThreshold
  simp [List.isEmpty_iff, hne]

theorem robustModel_eq (O : Oracles) (losses : List PyFloat)
    (sents clss : List Nat) (fpr : ℚ) (c : Nat)
    (hne : classScores O losses sents clss c ≠ []) :
    robustModel O losses sents clss fpr c =
      (processClass O fpr (classScores O losses sents clss c)).2 := by
  unfold robustModel
  simp [List.isEmpty_iff, hne]

/-! ## Helper lemmas: list minima and maxima -/

theorem foldl_min_le_init (xs : List ℚ) : ∀ a : ℚ, xs.foldl min a ≤ a := by
  induction xs with
  | nil => intro a; exact le_refl a
  | cons x xs ih => intro a; exact le_trans (ih (min a x)) (min_le_left a x)

theorem foldl_min_le_mem (xs : List ℚ) : ∀ a x : ℚ, x ∈ xs → xs.foldl min a ≤ x := by
  induction xs with
  | nil => intro a x hx; simp at hx
  | cons y ys ih =>
    intro a x hx
    rcases List.mem_cons.mp hx with h | h
    · subst h
      exact le_trans (foldl_min_le_init ys (min a x)) (min_le_right a x)
    · exact ih (min a y) x h

theorem listMin_le {l : List ℚ} {x : ℚ} (hx : x ∈ l) : listMin l ≤ x := by
  cases l with
  | nil => simp at hx
  | cons y ys =>
    unfold listMin
    rcases List.mem_cons.mp hx with h | h
    · subst h
      exact foldl_min_le_init ys x
    · exact foldl_min_le_mem ys y x h

theorem init_le_foldl_max (xs : List ℚ) : ∀ a : ℚ, a ≤ xs.foldl max a := by
  induction xs with
  | nil => intro a; exact le_refl a
  | cons x xs ih => intro a; exact le_trans (le_max_left a x) (ih (max a x))

theorem mem_le_foldl_max (xs : List ℚ) : ∀ a x : ℚ, x ∈ xs → x ≤ xs.foldl max a := by
  induction xs with
  | nil => intro a x hx; simp at hx
  | cons y ys ih =>
    intro a x hx
    rcases List.mem_cons.mp hx with h | h
    · subst h
      exact le_trans (le_max_right a x) (init_le_foldl_max ys (max a x))
    · exact ih (max a y) x h

theorem le_listMax {l : List ℚ} {x : ℚ} (hx : x ∈ l) : x ≤ listMax l := by
  cases l with
  | nil => simp at hx
  | cons y ys =>
    unfold listMax
    rcases List.mem_cons.mp hx with h | h
    · subst h
      exact init_le_foldl_max ys x
    · exact mem_le_foldl_max ys y x h

theorem foldl_max_mem (xs : List ℚ) : ∀ a : ℚ, xs.foldl max a = a ∨ xs.foldl max a ∈ xs := by
  induction xs with
  | nil => intro a; exact Or.inl rfl
  | cons x xs ih =>
    intro a
    rcases ih (max a x) with h | h
    · rcases max_choice a x with hm | hm
      · exact Or.inl (by rw [List.foldl_cons, h, hm])
      · exact Or.inr (by rw [List.foldl_cons, h, hm]; exact List.mem_cons_self x xs)
    · exact Or.inr (List.mem_cons_of_mem x h)

theorem listMax_mem {l : List ℚ} (hl : l ≠ []) : listMax l ∈ l := by
  cases l with
  | nil => exact absurd rfl hl
  | cons y ys =>
    show List.foldl max y ys ∈ y :: ys
    rcases foldl_max_mem ys y with h | h
    · rw [h]; exact List.mem_cons_self y ys
    · exact List.mem_cons_of_mem y h

/-! ## Helper lemmas: rank index -/

theorem rank_nonneg {s : List ℚ} {q : ℚ} (h0 : 0 ≤ q) (hs : s ≠ []) :
    0 ≤ q / 100 * ((s.length : ℚ) - 1) := by
  have hn : (1 : ℚ) ≤ (s.length : ℚ) := by
    exact_mod_cast List.length_pos.mpr hs
  have : (0 : ℚ) ≤ q / 100 := div_nonneg h0 (by norm_num)
  nlinarith

theorem rankIndex_int_eq {s : List ℚ} {q : ℚ} (h0 : 0 ≤ q) (hs : s ≠ []) :
    ((rankIndex s q : ℤ)) = Int.floor (q / 100 * ((s.length : ℚ) - 1)) :=
  Int.toNat_of_nonneg (Int.floor_nonneg.mpr (rank_nonneg h0 hs))

theorem rankIndex_cast_le {s : List ℚ} {q : ℚ} (h0 : 0 ≤ q) (hs : s ≠ []) :
    ((rankIndex s q : ℚ)) ≤ q / 100 * ((s.length : ℚ) - 1) := by
  have h1 := rankIndex_int_eq (s := s) (q := q) h0 hs
  calc ((rankIndex s q : ℚ)) = (((rankIndex s q : ℤ) : ℚ)) := by push_cast; ring
    _ = ((Int.floor (q / 100 * ((s.length : ℚ) - 1)) : ℤ) : ℚ) := by
          exact_mod_cast congrArg (fun z : ℤ => (z : ℚ)) h1
    _ ≤ q / 100 * ((s.length : ℚ) - 1) := Int.floor_le _

theorem lt_rankIndex_add_one {s : List ℚ} {q : ℚ} (h0 : 0 ≤ q) (hs : s ≠ []) :
    q / 100 * ((s.length : ℚ) - 1) < (rankIndex s q : ℚ) + 1 := by
  have h1 := rankIndex_int_eq (s := s) (q := q) h0 hs
  have h3 := Int.lt_floor_add_one (q / 100 * ((s.length : ℚ) - 1))
  have h4 : ((rankIndex s q : ℚ)) = ((Int.floor (q / 100 * ((s.length : ℚ) - 1)) : ℤ) : ℚ) := by
    rw [← h1]
    push_cast
    ring
  rw [h4]
  linarith

theorem rankIndex_le_length_sub_one {s : List ℚ} {q : ℚ}
    (h0 : 0 ≤ q) (h100 : q ≤ 100) (hs : s ≠ []) :
    rankIndex s q ≤ s.length - 1 := by
  have hn : 1 ≤ s.length := List.length_pos.mpr hs
  have hn1 : (0 : ℚ) ≤ (s.length : ℚ) - 1 := by
    have : (1 : ℚ) ≤ (s.length : ℚ) := by exact_mod_cast hn
    linarith
  have hq1 : q / 100 ≤ 1 := by
    rw [div_le_one (by norm_num : (0:ℚ) < 100)]
    exact h100
  have hh : q / 100 * ((s.length : ℚ) - 1) ≤ ((s.length : ℚ) - 1) :=
    mul_le_of_le_one_left hn1 hq1
  have hfl : Int.floor ((s.length : ℚ) - 1) = (s.length : ℤ) - 1 := by
    have : ((s.length : ℚ) - 1) = (((s.length : ℤ) - 1 : ℤ) : ℚ) := by push_cast; ring
    rw [this, Int.floor_intCast]
  have hle : Int.floor (q / 100 * ((s.length : ℚ) - 1)) ≤ (s.length : ℤ) - 1 := by
    rw [← hfl]
    exact Int.floor_le_floor hh
  have h1 := rankIndex_int_eq (s := s) (q := q) h0 hs
  omega

theorem rankIndex_mono {s : List ℚ} {q q' : ℚ} (h0 : 0 ≤ q) (hqq : q ≤ q')
    (hs : s ≠ []) : rankIndex s q ≤ rankIndex s q' := by
  have h0' : 0 ≤ q' := le_trans h0 hqq
  have hn : (0 : ℚ) ≤ (s.length : ℚ) - 1 := by
    have : (1 : ℚ) ≤ (s.length : ℚ) := by exact_mod_cast List.length_pos.mpr hs
    linarith
  have hh : q / 100 * ((s.length : ℚ) - 1) ≤ q' / 100 * ((s.length : ℚ) - 1) := by
    apply mul_le_mul_of_nonneg_right _ hn
    exact div_le_div_of_nonneg_right hqq (by norm_num) -- q/100 ≤ q'/100
  have := Int.floor_le_floor hh
  have h1 := rankIndex_int_eq (s := s) (q := q) h0 hs
  have h2 := rankIndex_int_eq (s := s) (q := q') h0' hs
  omega

/-! ## Helper lemmas: sorted access -/

theorem sorted_getD_mono {s : List ℚ} (hsort : s.Sorted (· ≤ ·)) {i j : Nat}
    (hij : i ≤ j) (hj : j < s.length) :
    s.getD i 0 ≤ s.getD j 0 := by
  have hi : i < s.length := lt_of_le_of_lt hij hj
  rw [List.getD_eq_getElem s 0 hi, List.getD_eq_getElem s 0 hj]
  rcases lt_or_eq_of_le hij with h | h
  · exact List.pairwise_iff_getElem.mp hsort i j hi hj h
  · subst h
    exact le_refl _

theorem getD_mem {s : List ℚ} {i : Nat} (hi : i < s.length) : s.getD i 0 ∈ s := by
  rw [List.getD_eq_getElem s 0 hi]
  exact List.getElem_mem hi

/-! ## Percentile lemmas -/

theorem percentileSorted_def (s : List ℚ) (q : ℚ) :
    percentileSorted s q =
      s.getD (rankIndex s q) 0 +
        (q / 100 * ((s.length : ℚ) - 1) - (rankIndex s q : ℚ)) *
          (s.getD (rankIndex s q + 1) (s.getD (rankIndex s q) 0)
            - s.getD (rankIndex s q) 0) := rfl

theorem percentile_eq (l : List ℚ) (q : ℚ) :
    percentile l q = percentileSorted (sortedScores l) q := rfl

/-- The interpolated value lies between the two surrounding sorted entries. -/
theorem percentileSorted_bracket {s : List ℚ} (hsort : s.Sorted (· ≤ ·))
    (hs : s ≠ []) {q : ℚ} (h0 : 0 ≤ q) (h100 : q ≤ 100) :
    s.getD (rankIndex s q) 0 ≤ percentileSorted s q ∧
    percentileSorted s q ≤ s.getD (min (rankIndex s q + 1) (s.length - 1)) 0 := by
  have hn : 1 ≤ s.length := List.length_pos.mpr hs
  have hile : rankIndex s q ≤ s.length - 1 := rankIndex_le_length_sub_one h0 h100 hs
  have hfr0 : (0 : ℚ) ≤ q / 100 * ((s.length : ℚ) - 1) - (rankIndex s q : ℚ) := by
    have := rankIndex_cast_le (s := s) (q := q) h0 hs
    linarith
  have hfr1 : q / 100 * ((s.length : ℚ) - 1) - (rankIndex s q : ℚ) < 1 := by
    have := lt_rankIndex_add_one (s := s) (q := q) h0 hs
    linarith
  rw [percentileSorted_def]
  by_cases hcase : rankIndex s q + 1 < s.length
  · have hhi : s.getD (rankIndex s q + 1) (s.getD (rankIndex s q) 0)
        = s.getD (rankIndex s q + 1) 0 := by
      rw [List.getD_eq_getElem s _ hcase, List.getD_eq_getElem s 0 hcase]
    have hmono : s.getD (rankIndex s q) 0 ≤ s.getD (rankIndex s q + 1) 0 :=
      sorted_getD_mono hsort (Nat.le_succ _) hcase
    have hmin : min (rankIndex s q + 1) (s.length - 1) = rankIndex s q + 1 := by
      omega
    rw [hhi, hmin]
    constructor
    · nlinarith
    · nlinarith
  · have hout : s.length ≤ rankIndex s q + 1 := by omega
    have hieq : rankIndex s q = s.length - 1 := by omega
    have hhi : s.getD (rankIndex s q + 1) (s.getD (rankIndex s q) 0)
        = s.getD (rankIndex s q) 0 := List.getD_eq_default _ _ hout
    have hmin : min (rankIndex s q + 1) (s.length - 1) = rankIndex s q := by omega
    rw [hhi, hmin]
    constructor
    · nlinarith
    · nlinarith

/-- Percentiles are monotone in the requested rank. -/
theorem percentileSorted_mono {s : List ℚ} (hsort : s.Sorted (· ≤ ·))
    (hs : s ≠ []) {q q' : ℚ} (h0 : 0 ≤ q) (hqq : q ≤ q') (h100 : q' ≤ 100) :
    percentileSorted s q ≤ percentileSorted s q' := by
  have hn : 1 ≤ s.length := List.length_pos.mpr hs
  have h0' : 0 ≤ q' := le_trans h0 hqq
  have hq100 : q ≤ 100 := le_trans hqq h100
  have hmono := rankIndex_mono (s := s) h0 hqq hs
  rcases Nat.lt_or_ge (rankIndex s q) (rankIndex s q') with hlt | hge
  · have h1 := (percentileSorted_bracket hsort hs h0 hq100).2
    have h2 := (percentileSorted_bracket hsort hs h0' h100).1
    have hle' : rankIndex s q' ≤ s.length - 1 :=
      rankIndex_le_length_sub_one h0' h100 hs
    have h3 : s.getD (min (rankIndex s q + 1) (s.length - 1)) 0
        ≤ s.getD (rankIndex s q') 0 :=
      sorted_getD_mono hsort (by omega) (by omega)
    linarith
  · have heq : rankIndex s q = rankIndex s q' := by omega
    have hfr : q / 100 * ((s.length : ℚ) - 1) ≤ q' / 100 * ((s.length : ℚ) - 1) := by
      have hn1 : (0 : ℚ) ≤ (s.length : ℚ) - 1 := by
        have : (1 : ℚ) ≤ (s.length : ℚ) := by exact_mod_cast hn
        linarith
      exact mul_le_mul_of_nonneg_right
        (div_le_div_of_nonneg_right hqq (by norm_num) ..) hn1
    have hdiff : 0 ≤ s.getD (rankIndex s q + 1) (s.getD (rankIndex s q) 0)
        - s.getD (rankIndex s q) 0 := by
      by_cases hcase : rankIndex s q + 1 < s.length
      · have h1 : s.getD (rankIndex s q + 1) (s.getD (rankIndex s q) 0)
            = s.getD (rankIndex s q + 1) 0 := by
          rw [List.getD_eq_getElem s _ hcase, List.getD_eq_getElem s 0 hcase]
        rw [h1]
        have := sorted_getD_mono hsort (Nat.le_succ (rankIndex s q)) hcase
        linarith
      · rw [List.getD_eq_default _ _ (by omega)]
        linarith
    rw [percentileSorted_def, percentileSorted_def, ← heq]
    nlinarith

/-- The percentile of a non-empty list lies between its minimum and
maximum. -/
theorem percentile_range {l : List ℚ} (hl : l ≠ []) {q : ℚ}
    (h0 : 0 ≤ q) (h100 : q ≤ 100) :
    listMin l ≤ percentile l q ∧ percentile l q ≤ listMax l := by
  have hsort : (sortedScores l).Sorted (· ≤ ·) := List.sorted_insertionSort _ l
  have hlen : (sortedScores l).length = l.length := List.length_insertionSort _ l
  have hs : sortedScores l ≠ [] := by
    intro h
    apply hl
    have := congrArg List.length h
    rw [hlen] at this
    exact List.length_eq_zero.mp this
  have hn : 1 ≤ (sortedScores l).length := List.length_pos.mpr hs
  have hile : rankIndex (sortedScores l) q ≤ (sortedScores l).length - 1 :=
    rankIndex_le_length_sub_one h0 h100 hs
  have hbr := percentileSorted_bracket hsort hs h0 h100
  constructor
  · have hmem : (sortedScores l).getD (rankIndex (sortedScores l) q) 0 ∈ l := by
      have := getD_mem (s := sortedScores l) (i := rankIndex (sortedScores l) q) (by omega)
      exact (List.mem_insertionSort _).mp this
    calc listMin l ≤ (sortedScores l).getD (rankIndex (sortedScores l) q) 0 :=
          listMin_le hmem
      _ ≤ percentile l q := by rw [percentile_eq]; exact hbr.1
  · have hmem : (sortedScores l).getD
        (min (rankIndex (sortedScores l) q + 1) ((sortedScores l).length - 1)) 0 ∈ l := by
      have := getD_mem (s := sortedScores l)
        (i := min (rankIndex (sortedScores l) q + 1) ((sortedScores l).length - 1))
        (by omega)
      exact (List.mem_insertionSort _).mp this
    calc percentile l q
        ≤ (sortedScores l).getD
            (min (rankIndex (sortedScores l) q + 1) ((sortedScores l).length - 1)) 0 := by
          rw [percentile_eq]; exact hbr.2
      _ ≤ listMax l := le_listMax hmem

/-- Membership in the IQR-trimmed list. -/
theorem mem_trimmedScores {l : List ℚ} {x : ℚ} :
    x ∈ trimmedScores l ↔ x ∈ l ∧ lowerBound l ≤ x ∧ x ≤ upperBound l := by
  unfold trimmedScores
  simp [List.mem_filter, and_assoc]

/-- In a list of three or more scores there is an element inside the IQR
band that does not exceed the 95th percentile (the sorted element one past
the lower quartile's rank). -/
theorem band_elem_le_p95 {l : List ℚ} (h3 : 3 ≤ l.length) :
    ∃ x ∈ l, lowerBound l ≤ x ∧ x ≤ upperBound l ∧ x ≤ percentile l 95 := by
  have hsort : (sortedScores l).Sorted (· ≤ ·) := List.sorted_insertionSort _ l
  have hlen : (sortedScores l).length = l.length := List.length_insertionSort _ l
  have hs : sortedScores l ≠ [] := by
    intro h
    have h0 : (sortedScores l).length = 0 := by rw [h]; rfl
    rw [hlen] at h0
    omega
  have hn3 : 3 ≤ (sortedScores l).length := by omega
  have key : rankIndex (sortedScores l) 25 + 1 ≤ rankIndex (sortedScores l) 75 := by
    have hcast : (3 : ℚ) ≤ ((sortedScores l).length : ℚ) := by exact_mod_cast hn3
    have hq : (25 : ℚ) / 100 * (((sortedScores l).length : ℚ) - 1) + 1
        ≤ (75 : ℚ) / 100 * (((sortedScores l).length : ℚ) - 1) := by linarith
    have ha := rankIndex_cast_le (s := sortedScores l) (q := 25) (by norm_num) hs
    have hb := lt_rankIndex_add_one (s := sortedScores l) (q := 75) (by norm_num) hs
    have : ((rankIndex (sortedScores l) 25 : ℚ)) + 1
        < ((rankIndex (sortedScores l) 75 : ℚ)) + 1 := by linarith
    have hlt : rankIndex (sortedScores l) 25 < rankIndex (sortedScores l) 75 := by
      exact_mod_cast (by linarith : ((rankIndex (sortedScores l) 25 : ℚ))
        < ((rankIndex (sortedScores l) 75 : ℚ)))
    omega
  have h75le : rankIndex (sortedScores l) 75 ≤ (sortedScores l).length - 1 :=
    rankIndex_le_length_sub_one (by norm_num) (by norm_num) hs
  have hidx : rankIndex (sortedScores l) 25 + 1 < (sortedScores l).length := by omega
  have hq1x : percentile l 25 ≤ (sortedScores l).getD (rankIndex (sortedScores l) 25 + 1) 0 := by
    rw [percentile_eq]
    have := (percentileSorted_bracket hsort hs (q := 25) (by norm_num) (by norm_num)).2
    have hmin : min (rankIndex (sortedScores l) 25 + 1) ((sortedScores l).length - 1)
        = rankIndex (sortedScores l) 25 + 1 := by omega
    rw [hmin] at this
    exact this
  have hxq3 : (sortedScores l).getD (rankIndex (sortedScores l) 25 + 1) 0
      ≤ percentile l 75 := by
    rw [percentile_eq]
    have hb := (percentileSorted_bracket hsort hs (q := 75) (by norm_num) (by norm_num)).1
    have hmono : (sortedScores l).getD (rankIndex (sortedScores l) 25 + 1) 0
        ≤ (sortedScores l).getD (rankIndex (sortedScores l) 75) 0 :=
      sorted_getD_mono hsort key (by omega)
    linarith
  have hq13 : percentile l 25 ≤ percentile l 75 := by
    rw [percentile_eq, percentile_eq]
    exact percentileSorted_mono hsort hs (by norm_num) (by norm_num) (by norm_num)
  have h3595 : percentile l 75 ≤ percentile l 95 := by
    rw [percentile_eq, percentile_eq]
    exact percentileSorted_mono hsort hs (by norm_num) (by norm_num) (by norm_num)
  refine ⟨(sortedScores l).getD (rankIndex (sortedScores l) 25 + 1) 0, ?_, ?_, ?_, ?_⟩
  · exact (List.mem_insertionSort _).mp (getD_mem hidx)
  · unfold lowerBound
    linarith
  · unfold upperBound
    linarith
  · linarith

/-- The maximum of the trimmed scores cannot exceed the raw maximum. -/
theorem listMax_trimmed_le {l : List ℚ} (h : trimmedScores l ≠ []) :
    listMax (trimmedScores l) ≤ listMax l :=
  le_listMax (mem_trimmedScores.mp (listMax_mem h)).1

/-! ## Claim theorems: loss collector -/

/-- C5: when every example of the input is invalid (its loss computation
raises, or the value is NaN/Inf), `compute_loss_safe` returns exactly the
one-element population `[10.0]`. -/
theorem C5_all_invalid_yields_sentinel (data : List LossStep)
    (h : ∀ s ∈ data, lossOf s = none) :
    compute_loss_safe data = [PyFloat.fin 10] := by
  have hnil : data.filterMap lossOf = [] := by
    induction data with
    | nil => rfl
    | cons a l ih =>
      have ha := h a (List.mem_cons_self a l)
      simp only [List.filterMap_cons, ha]
      exact ih (fun s hs => h s (List.mem_cons_of_mem a hs))
  simp [compute_loss_safe, hnil]

theorem C5_witness :
    compute_loss_safe [LossStep.raise, LossStep.val PyFloat.nan, LossStep.val PyFloat.inf]
      = [PyFloat.fin 10] :=
  C5_all_invalid_yields_sentinel _ (by decide)

/-- C6: with at least one valid example, each invalid example is skipped
(counted by `skipped_count`) while processing continues; the output length
equals the number of valid examples and valid-count plus skipped-count
equals the total number of examples seen. -/
theorem C6_skip_counts (data : List LossStep)
    (h : ∃ s ∈ data, (lossOf s).isSome) :
    (compute_loss_safe data).length = valid_count data ∧
    valid_count data + skipped_count data = data.length := by
  refine ⟨?_, valid_add_skipped data⟩
  obtain ⟨s, hs, hsome⟩ := h
  obtain ⟨v, hv⟩ := Option.isSome_iff_exists.mp hsome
  have hmem : v ∈ data.filterMap lossOf := List.mem_filterMap.mpr ⟨s, hs, hv⟩
  have hne : ¬ (data.filterMap lossOf).isEmpty := by
    intro hemp
    rw [List.isEmpty_iff] at hemp
    rw [hemp] at hmem
    exact List.not_mem_nil v hmem
  simp [compute_loss_safe, hne, valid_count]

theorem C6_witness :
    (compute_loss_safe [LossStep.val (PyFloat.fin 2), LossStep.raise,
        LossStep.val PyFloat.nan]).length
      = valid_count [LossStep.val (PyFloat.fin 2), LossStep.raise, LossStep.val PyFloat.nan] ∧
    valid_count [LossStep.val (PyFloat.fin 2), LossStep.raise, LossStep.val PyFloat.nan]
      + skipped_count [LossStep.val (PyFloat.fin 2), LossStep.raise, LossStep.val PyFloat.nan]
      = 3 :=
  C6_skip_counts _ (by decide)

/-- C9: for every input sequence, the population returned by
`compute_loss_safe` is non-empty and consists only of finite values
(never NaN or Inf). -/
theorem C9_population_nonempty_finite (data : List LossStep) :
    compute_loss_safe data ≠ [] ∧
    ∀ v ∈ compute_loss_safe data, ∃ q : ℚ, v = PyFloat.fin q := by
  constructor
  · simp only [compute_loss_safe]
    split
    · simp
    · next hemp =>
        intro hnil
        rw [hnil] at hemp
        simp at hemp
  · intro v hv
    simp only [compute_loss_safe] at hv
    split at hv
    · simp at hv
      exact ⟨10, hv⟩
    · obtain ⟨s, _, hval⟩ := List.mem_filterMap.mp hv
      exact lossOf_fin hval

/-! ## Claim theorems: decision procedure -/

/-- C10: `predict` returns exactly `min (length losses) (length sentences)`
labels, each determined in input order by the pair at its own index; excess
elements of the longer list are ignored (the output ends at the shorter
list). -/
theorem C10_predict_zip_semantics (O : Oracles) (t : ℚ) (ood : Nat)
    (losses : List ℚ) (sens : List Nat) :
    (predict O t ood losses sens).length = min losses.length sens.length ∧
    ∀ (i : Nat) (loss : ℚ) (sen : Nat), losses[i]? = some loss → sens[i]? = some sen →
      (predict O t ood losses sens)[i]? =
        some (if loss ≤ t then argmaxRow (O.classifierLogits sen) else ood) := by
  refine ⟨predict_length O t ood losses sens, ?_⟩
  intro i loss sen hl hs
  simp [predict_getElem?, hl, hs]

theorem C10_witness :
    (predict ⟨fun _ => [1], fun _ => [1, 3], fun _ => none, fun _ _ => 0⟩
        2 7 [1, 5, 9] [4, 6]).length = min 3 2 ∧
    (predict ⟨fun _ => [1], fun _ => [1, 3], fun _ => none, fun _ _ => 0⟩
        2 7 [1, 5, 9] [4, 6])[0]? =
      some (if (1 : ℚ) ≤ 2 then argmaxRow [1, 3] else 7) ∧
    (predict ⟨fun _ => [1], fun _ => [1, 3], fun _ => none, fun _ _ => 0⟩
        2 7 [1, 5, 9] [4, 6])[1]? =
      some (if (5 : ℚ) ≤ 2 then argmaxRow [1, 3] else 7) :=
  ⟨(C10_predict_zip_semantics _ 2 7 [1, 5, 9] [4, 6]).1,
   (C10_predict_zip_semantics _ 2 7 [1, 5, 9] [4, 6]).2 0 1 4 (by decide) (by decide),
   (C10_predict_zip_semantics _ 2 7 [1, 5, 9] [4, 6]).2 1 5 6 (by decide) (by decide)⟩

/-- C8: with a fixed threshold, an example with loss at or below the
threshold is labelled with the classifier argmax for its sentence, and one
with loss above the threshold is labelled `ood_label`; consequently raising
a single example's loss from at-or-below to above the threshold flips its
label from the classifier label to OOD while every other position's label
is unchanged. -/
theorem C8_threshold_decision (O : Oracles) (t : ℚ) (ood : Nat)
    (losses : List ℚ) (sens : List Nat) (i : Nat) (loss l1 l2 : ℚ) (sen : Nat)
    (hl : losses[i]? = some loss) (hs : sens[i]? = some sen)
    (h1 : l1 ≤ t) (h2 : t < l2) :
    (predict O t ood losses sens)[i]? =
      some (if loss ≤ t then argmaxRow (O.classifierLogits sen) else ood) ∧
    (predict O t ood (losses.set i l1) sens)[i]? =
      some (argmaxRow (O.classifierLogits sen)) ∧
    (predict O t ood (losses.set i l2) sens)[i]? = some ood ∧
    ∀ j : Nat, j ≠ i →
      (predict O t ood (losses.set i l2) sens)[j]? =
        (predict O t ood (losses.set i l1) sens)[j]? := by
  have hi : i < losses.length := by
    by_contra hge
    rw [List.getElem?_eq_none (by omega)] at hl
    exact Option.noConfusion hl
  refine ⟨?_, ?_, ?_, ?_⟩
  · simp [predict_getElem?, hl, hs]
  · rw [predict_getElem?, List.getElem?_set_eq_of_lt l1 hi]
    simp [hs, h1]
  · rw [predict_getElem?, List.getElem?_set_eq_of_lt l2 hi]
    simp [hs, not_le_of_lt h2]
  · intro j hj
    rw [predict_getElem?, predict_getElem?,
      List.getElem?_set_ne (fun h => hj h.symm),
      List.getElem?_set_ne (fun h => hj h.symm)]

theorem C8_witness :
    ((predict ⟨fun _ => [1], fun _ => [1, 3], fun _ => none, fun _ _ => 0⟩
        2 9 [1, 5] [4, 6])[0]? =
      some (if (1 : ℚ) ≤ 2 then argmaxRow [1, 3] else 9) ∧
     (predict ⟨fun _ => [1], fun _ => [1, 3], fun _ => none, fun _ _ => 0⟩
        2 9 ([1, 5].set 0 0) [4, 6])[0]? = some (argmaxRow [1, 3]) ∧
     (predict ⟨fun _ => [1], fun _ => [1, 3], fun _ => none, fun _ _ => 0⟩
        2 9 ([1, 5].set 0 7) [4, 6])[0]? = some 9 ∧
     (predict ⟨fun _ => [1], fun _ => [1, 3], fun _ => none, fun _ _ => 0⟩
        2 9 ([1, 5].set 0 7) [4, 6])[1]? =
       (predict ⟨fun _ => [1], fun _ => [1, 3], fun _ => none, fun _ _ => 0⟩
          2 9 ([1, 5].set 0 0) [4, 6])[1]?) :=
  ⟨(C8_threshold_decision _ 2 9 [1, 5] [4, 6] 0 1 0 7 4
      (by decide) (by decide) (by decide) (by decide)).1,
   (C8_threshold_decision _ 2 9 [1, 5] [4, 6] 0 1 0 7 4
      (by decide) (by decide) (by decide) (by decide)).2.1,
   (C8_threshold_decision _ 2 9 [1, 5] [4, 6] 0 1 0 7 4
      (by decide) (by decide) (by decide) (by decide)).2.2.1,
   (C8_threshold_decision _ 2 9 [1, 5] [4, 6] 0 1 0 7 4
      (by decide) (by decide) (by decide) (by decide)).2.2.2 1 (by decide)⟩

/-! ## Claim theorems: robust EVT fitter -/

/-- C2: a class whose list of valid ensemble scores is non-empty with fewer
than 10 elements never gets a GEV model, and its threshold is the 95th
percentile of its raw (untrimmed) scores. -/
theorem C2_small_class_percentile (O : Oracles) (losses : List PyFloat)
    (sentences true_classes : List Nat) (fpr : ℚ) (c : Nat)
    (hne : classScores O losses sentences true_classes c ≠ [])
    (hlt : (classScores O losses sentences true_classes c).length < 10) :
    (fit_evt_models_robust O losses sentences true_classes fpr).2 c = none ∧
    (fit_evt_models_robust O losses sentences true_classes fpr).1 c =
      some (percentile (classScores O losses sentences true_classes c) 95) := by
  unfold fit_evt_models_robust
  dsimp only
  rw [robustModel_eq O losses sentences true_classes fpr c hne,
    robustThreshold_eq O losses sentences true_classes fpr c hne,
    processClass_lt10 O fpr _ hlt]
  exact ⟨rfl, rfl⟩

theorem C2_witness :
    (fit_evt_models_robust ⟨fun _ => [1], fun _ => [1], fun _ => none, fun _ _ => 0⟩
        [PyFloat.fin 1] [0] [0] (1 / 20)).2 0 = none ∧
    (fit_evt_models_robust ⟨fun _ => [1], fun _ => [1], fun _ => none, fun _ _ => 0⟩
        [PyFloat.fin 1] [0] [0] (1 / 20)).1 0 =
      some (percentile (classScores
        ⟨fun _ => [1], fun _ => [1], fun _ => none, fun _ _ => 0⟩
        [PyFloat.fin 1] [0] [0] 0) 95) :=
  C2_small_class_percentile _ _ _ _ _ _ (by decide) (by decide)

/-- C1: every EVTModel entry recorded by the robust fitter satisfies
`|shape| ≤ 2`, `scale > 0` and `scale ≤ 10`; when the fitted parameters
violate any of these bounds, no model entry is recorded for the class and
its threshold is the `(1 - fpr)`-percentile of the trimmed scores. -/
theorem C1_model_sanity_bounds (O : Oracles) (losses : List PyFloat)
    (sentences true_classes : List Nat) (fpr : ℚ) (c : Nat) :
    (∀ shape loc scale : ℚ,
      (fit_evt_models_robust O losses sentences true_classes fpr).2 c
        = some (shape, loc, scale) →
      |shape| ≤ 2 ∧ 0 < scale ∧ scale ≤ 10) ∧
    (∀ shape loc scale : ℚ,
      ¬ (classScores O losses sentences true_classes c).length < 10 →
      ¬ (trimmedScores (classScores O losses sentences true_classes c)).length < 5 →
      O.gevFit ((trimmedScores (classScores O losses sentences true_classes c)).map
          (fun x => -x)) = some (shape, loc, scale) →
      2 < |shape| ∨ scale ≤ 0 ∨ 10 < scale →
      (fit_evt_models_robust O losses sentences true_classes fpr).2 c = none ∧
      (fit_evt_models_robust O losses sentences true_classes fpr).1 c =
        some (percentile (trimmedScores (classScores O losses sentences true_classes c))
          (100 * (1 - fpr)))) := by
  constructor
  · intro shape loc scale hmodel
    by_cases hne : classScores O losses sentences true_classes c = []
    · unfold fit_evt_models_robust robustModel at hmodel
      dsimp only at hmodel
      simp [hne] at hmodel
    · unfold fit_evt_models_robust at hmodel
      dsimp only at hmodel
      rw [robustModel_eq O losses sentences true_classes fpr c hne] at hmodel
      by_cases h10 : (classScores O losses sentences true_classes c).length < 10
      · rw [processClass_lt10 O fpr _ h10] at hmodel
        simp at hmodel
      · by_cases h5 :
          (trimmedScores (classScores O losses sentences true_classes c)).length < 5
        · rw [processClass_lt5 O fpr _ h10 h5] at hmodel
          simp at hmodel
        · cases hfit : O.gevFit
            ((trimmedScores (classScores O losses sentences true_classes c)).map
              (fun x => -x)) with
          | none =>
            rw [processClass_fitFail O fpr _ h10 h5 hfit] at hmodel
            simp at hmodel
          | some p =>
            obtain ⟨sh, lo, sc⟩ := p
            by_cases hbad : 2 < |sh| ∨ sc ≤ 0 ∨ 10 < sc
            · rw [processClass_badParams O fpr _ sh lo sc h10 h5 hfit hbad] at hmodel
              simp at hmodel
            · rw [processClass_goodParams O fpr _ sh lo sc h10 h5 hfit hbad] at hmodel
              simp at hmodel
              obtain ⟨h1, h2, h3⟩ := hmodel
              subst h1; subst h2; subst h3
              push_neg at hbad
              exact ⟨hbad.1, hbad.2.1, hbad.2.2⟩
  · intro shape loc scale h10 h5 hfit hbad
    have hne : classScores O losses sentences true_classes c ≠ [] := by
      intro hnil
      rw [hnil] at h10
      exact h10 (by simp)
    unfold fit_evt_models_robust
    dsimp only
    rw [robustModel_eq O losses sentences true_classes fpr c hne,
      robustThreshold_eq O losses sentences true_classes fpr c hne,
      processClass_badParams O fpr _ shape loc scale h10 h5 hfit hbad]
    exact ⟨rfl, rfl⟩

theorem C1_witness :
    (|(1 : ℚ)| ≤ 2 ∧ (0 : ℚ) < 1 ∧ (1 : ℚ) ≤ 10) ∧
    ((fit_evt_models_robust
        ⟨fun _ => [1], fun _ => [1], fun _ => some (5, 0, 1), fun _ _ => 0⟩
        (List.replicate 10 (PyFloat.fin 1)) (List.replicate 10 0)
        (List.replicate 10 0) (1 / 20)).2 0 = none ∧
     (fit_evt_models_robust
        ⟨fun _ => [1], fun _ => [1], fun _ => some (5, 0, 1), fun _ _ => 0⟩
        (List.replicate 10 (PyFloat.fin 1)) (List.replicate 10 0)
        (List.replicate 10 0) (1 / 20)).1 0 =
      some (percentile (trimmedScores (classScores
        ⟨fun _ => [1], fun _ => [1], fun _ => some (5, 0, 1), fun _ _ => 0⟩
        (List.replicate 10 (PyFloat.fin 1)) (List.replicate 10 0)
        (List.replicate 10 0) 0)) (100 * (1 - 1 / 20)))) :=
  ⟨(C1_model_sanity_bounds
      ⟨fun _ => [1], fun _ => [1], fun _ => some (1, 0, 1), fun _ _ => 0⟩
      (List.replicate 10 (PyFloat.fin 1)) (List.replicate 10 0)
      (List.replicate 10 0) (1 / 20) 0).1 1 0 1 (by decide),
   (C1_model_sanity_bounds
      ⟨fun _ => [1], fun _ => [1], fun _ => some (5, 0, 1), fun _ _ => 0⟩
      (List.replicate 10 (PyFloat.fin 1)) (List.replicate 10 0)
      (List.replicate 10 0) (1 / 20) 0).2 5 0 1 (by decide) (by decide)
      (by decide) (by decide)⟩

/-- C3: for a class with at least 10 valid scores, the robust fitter trims
exactly the scores outside `[Q1 - 1.5*IQR, Q3 + 1.5*IQR]` (bounds computed
from that class's scores); and if fewer than 5 scores survived the
trimming, the class's threshold is the 95th percentile of the untrimmed
scores and no GEV model is recorded. -/
theorem C3_iqr_trimming (O : Oracles) (losses : List PyFloat)
    (sentences true_classes : List Nat) (fpr : ℚ) (c : Nat)
    (h10 : 10 ≤ (classScores O losses sentences true_classes c).length) :
    (∀ x : ℚ,
      x ∈ trimmedScores (classScores O losses sentences true_classes c) ↔
      x ∈ classScores O losses sentences true_classes c ∧
        lowerBound (classScores O losses sentences true_classes c) ≤ x ∧
        x ≤ upperBound (classScores O losses sentences true_classes c)) ∧
    ((trimmedScores (classScores O losses sentences true_classes c)).length < 5 →
      (fit_evt_models_robust O losses sentences true_classes fpr).1 c =
        some (percentile (classScores O losses sentences true_classes c) 95) ∧
      (fit_evt_models_robust O losses sentences true_classes fpr).2 c = none) := by
  constructor
  · intro x
    unfold trimmedScores
    simp [List.mem_filter, and_assoc]
  · intro h5
    have hne : classScores O losses sentences true_classes c ≠ [] := by
      intro hnil
      rw [hnil] at h10
      simp at h10
    unfold fit_evt_models_robust
    dsimp only
    rw [robustThreshold_eq O losses sentences true_classes fpr c hne,
      robustModel_eq O losses sentences true_classes fpr c hne,
      processClass_lt5 O fpr _ (by omega) h5]
    exact ⟨rfl, rfl⟩

theorem C3_witness :
    (3 / 2 : ℚ) ∈ trimmedScores (classScores
        ⟨fun _ => [1], fun _ => [1], fun _ => none, fun _ _ => 0⟩
        (List.replicate 10 (PyFloat.fin 3)) (List.replicate 10 0)
        (List.replicate 10 0) 0) ↔
      (3 / 2 : ℚ) ∈ classScores
        ⟨fun _ => [1], fun _ => [1], fun _ => none, fun _ _ => 0⟩
        (List.replicate 10 (PyFloat.fin 3)) (List.replicate 10 0)
        (List.replicate 10 0) 0 ∧
      lowerBound (classScores
        ⟨fun _ => [1], fun _ => [1], fun _ => none, fun _ _ => 0⟩
        (List.replicate 10 (PyFloat.fin 3)) (List.replicate 10 0)
        (List.replicate 10 0) 0) ≤ 3 / 2 ∧
      (3 / 2 : ℚ) ≤ upperBound (classScores
        ⟨fun _ => [1], fun _ => [1], fun _ => none, fun _ _ => 0⟩
        (List.replicate 10 (PyFloat.fin 3)) (List.replicate 10 0)
        (List.replicate 10 0) 0) :=
  (C3_iqr_trimming _ _ _ _ (1 / 20) 0 (by decide)).1 (3 / 2)

/-- The threshold chosen for a class is never below the minimum of its
trimmed scores and, when the raw maximum is non-negative, never above twice
its raw maximum. -/
theorem processClass_range (O : Oracles) (fpr : ℚ) (scores : List ℚ)
    (hfpr0 : 0 ≤ fpr) (hfpr1 : fpr ≤ 1) (hne : scores ≠ [])
    (hmax : 0 ≤ listMax scores) :
    listMin (classTrimmed scores) ≤ (processClass O fpr scores).1 ∧
    (processClass O fpr scores).1 ≤ listMax scores * 2 := by
  by_cases h10 : scores.length < 10
  · rw [processClass_lt10 O fpr _ h10]
    have hct : classTrimmed scores = scores := by
      unfold classTrimmed
      rw [if_pos h10]
    have hrange := percentile_range hne (q := 95) (by norm_num) (by norm_num)
    exact ⟨by rw [hct]; exact hrange.1, by linarith [hrange.2]⟩
  · have hct : classTrimmed scores = trimmedScores scores := by
      unfold classTrimmed
      rw [if_neg h10]
    rw [hct]
    by_cases h5 : (trimmedScores scores).length < 5
    · rw [processClass_lt5 O fpr _ h10 h5]
      obtain ⟨x, hxl, hlb, hub, hx95⟩ :=
        band_elem_le_p95 (l := scores) (by omega)
      have hxmem : x ∈ trimmedScores scores := mem_trimmedScores.mpr ⟨hxl, hlb, hub⟩
      have hrange := percentile_range hne (q := 95) (by norm_num) (by norm_num)
      exact ⟨le_trans (listMin_le hxmem) hx95, by linarith [hrange.2]⟩
    · have hcne : trimmedScores scores ≠ [] := by
        intro h
        rw [h] at h5
        exact h5 (by norm_num)
      have hq0 : (0 : ℚ) ≤ 100 * (1 - fpr) := by linarith
      have hq100 : 100 * (1 - fpr) ≤ 100 := by linarith
      have hcr := percentile_range hcne hq0 hq100
      have hcmax := listMax_trimmed_le hcne
      have hfallback :
          listMin (trimmedScores scores)
            ≤ percentile (trimmedScores scores) (100 * (1 - fpr)) ∧
          percentile (trimmedScores scores) (100 * (1 - fpr))
            ≤ listMax scores * 2 := ⟨hcr.1, by linarith [hcr.2]⟩
      cases hfit : O.gevFit ((trimmedScores scores).map (fun x => -x)) with
      | none =>
        rw [processClass_fitFail O fpr _ h10 h5 hfit]
        exact hfallback
      | some p =>
        obtain ⟨sh, lo, sc⟩ := p
        by_cases hbad : 2 < |sh| ∨ sc ≤ 0 ∨ 10 < sc
        · rw [processClass_badParams O fpr _ sh lo sc h10 h5 hfit hbad]
          exact hfallback
        · rw [processClass_goodParams O fpr _ sh lo sc h10 h5 hfit hbad]
          dsimp only
          by_cases hdisc : - O.gevPpf (1 - fpr) (sh, lo, sc)
              < listMin (trimmedScores scores)
              ∨ listMax scores * 2 < - O.gevPpf (1 - fpr) (sh, lo, sc)
          · rw [if_pos hdisc]
            exact hfallback
          · rw [if_neg hdisc]
            push_neg at hdisc
            exact ⟨hdisc.1, hdisc.2⟩

/-- A GEV threshold failing the range check is replaced by the percentile
of the trimmed scores. -/
theorem processClass_discard (O : Oracles) (fpr : ℚ) (scores : List ℚ)
    (shape loc scale : ℚ)
    (h10 : ¬ scores.length < 10) (h5 : ¬ (trimmedScores scores).length < 5)
    (hfit : O.gevFit ((trimmedScores scores).map (fun x => -x))
      = some (shape, loc, scale))
    (hgood : ¬ (2 < |shape| ∨ scale ≤ 0 ∨ 10 < scale))
    (hdisc : - O.gevPpf (1 - fpr) (shape, loc, scale) < listMin (trimmedScores scores)
      ∨ listMax scores * 2 < - O.gevPpf (1 - fpr) (shape, loc, scale)) :
    (processClass O fpr scores).1 =
      percentile (trimmedScores scores) (100 * (1 - fpr)) := by
  rw [processClass_goodParams O fpr _ shape loc scale h10 h5 hfit hgood]
  dsimp only
  rw [if_pos hdisc]

/-- C4 (amended): provided `fpr ∈ [0, 1]` and the class's maximum raw score
is non-negative, the final threshold of the robust fitter for any class lies
between the minimum trimmed score (the raw scores when no trimming was
performed, i.e. fewer than 10 samples) and twice the maximum raw score; and
an accepted GEV threshold that violates this range is discarded in favour of
the `(1 - fpr)`-percentile of the trimmed scores. -/
theorem C4_threshold_sanity (O : Oracles) (losses : List PyFloat)
    (sentences true_classes : List Nat) (fpr : ℚ) (c : Nat) (t : ℚ)
    (hfpr0 : 0 ≤ fpr) (hfpr1 : fpr ≤ 1)
    (ht : (fit_evt_models_robust O losses sentences true_classes fpr).1 c = some t)
    (hmax : 0 ≤ listMax (classScores O losses sentences true_classes c)) :
    (listMin (classTrimmed (classScores O losses sentences true_classes c)) ≤ t ∧
     t ≤ listMax (classScores O losses sentences true_classes c) * 2) ∧
    (∀ shape loc scale : ℚ,
      ¬ (classScores O losses sentences true_classes c).length < 10 →
      ¬ (trimmedScores (classScores O losses sentences true_classes c)).length < 5 →
      O.gevFit ((trimmedScores (classScores O losses sentences true_classes c)).map
          (fun x => -x)) = some (shape, loc, scale) →
      ¬ (2 < |shape| ∨ scale ≤ 0 ∨ 10 < scale) →
      (- O.gevPpf (1 - fpr) (shape, loc, scale) <
          listMin (trimmedScores (classScores O losses sentences true_classes c)) ∨
        listMax (classScores O losses sentences true_classes c) * 2 <
          - O.gevPpf (1 - fpr) (shape, loc, scale)) →
      t = percentile (trimmedScores (classScores O losses sentences true_classes c))
          (100 * (1 - fpr))) := by
  by_cases hne : classScores O losses sentences true_classes c = []
  · unfold fit_evt_models_robust robustThreshold at ht
    dsimp only at ht
    rw [hne] at ht
    simp at ht
  · have hts : t = (processClass O fpr
        (classScores O losses sentences true_classes c)).1 := by
      unfold fit_evt_models_robust at ht
      dsimp only at ht
      rw [robustThreshold_eq O losses sentences true_classes fpr c hne] at ht
      exact (Option.some_inj.mp ht).symm
    constructor
    · rw [hts]
      exact processClass_range O fpr _ hfpr0 hfpr1 hne hmax
    · intro shape loc scale h10 h5 hfit hgood hdisc
      rw [hts]
      exact processClass_discard O fpr _ shape loc scale h10 h5 hfit hgood hdisc

/-- C4 counterexample: the claim as stated is false when all of a class's
scores are negative.  With one example of loss `-3` and classifier max
probability 1, the class's only score is `-3/2`, the threshold is the 95th
percentile `-3/2`, and twice the maximum raw score is `-3`: the threshold
exceeds twice the maximum raw score. -/
theorem C4_counterexample :
    (fit_evt_models_robust ⟨fun _ => [1], fun _ => [1], fun _ => none, fun _ _ => 0⟩
        [PyFloat.fin (-3)] [0] [0] (1 / 20)).1 0 = some (-3 / 2) ∧
    ¬ ((-3 / 2 : ℚ) ≤ listMax (classScores
        ⟨fun _ => [1], fun _ => [1], fun _ => none, fun _ _ => 0⟩
        [PyFloat.fin (-3)] [0] [0] 0) * 2) := by
  decide

theorem C4_witness :
    (listMin (classTrimmed (classScores
        ⟨fun _ => [1], fun _ => [1], fun _ => some (0, 0, 1), fun _ _ => 1000⟩
        (List.replicate 10 (PyFloat.fin 1)) (List.replicate 10 0)
        (List.replicate 10 0) 0)) ≤ 1 / 2 ∧
     (1 / 2 : ℚ) ≤ listMax (classScores
        ⟨fun _ => [1], fun _ => [1], fun _ => some (0, 0, 1), fun _ _ => 1000⟩
        (List.replicate 10 (PyFloat.fin 1)) (List.replicate 10 0)
        (List.replicate 10 0) 0) * 2) ∧
    (1 / 2 : ℚ) = percentile (trimmedScores (classScores
        ⟨fun _ => [1], fun _ => [1], fun _ => some (0, 0, 1), fun _ _ => 1000⟩
        (List.replicate 10 (PyFloat.fin 1)) (List.replicate 10 0)
        (List.replicate 10 0) 0)) (100 * (1 - 1 / 20)) :=
  ⟨(C4_threshold_sanity
      ⟨fun _ => [1], fun _ => [1], fun _ => some (0, 0, 1), fun _ _ => 1000⟩
      (List.replicate 10 (PyFloat.fin 1)) (List.replicate 10 0)
      (List.replicate 10 0) (1 / 20) 0 (1 / 2)
      (by norm_num) (by norm_num) (by decide) (by decide)).1,
   (C4_threshold_sanity
      ⟨fun _ => [1], fun _ => [1], fun _ => some (0, 0, 1), fun _ _ => 1000⟩
      (List.replicate 10 (PyFloat.fin 1)) (List.replicate 10 0)
      (List.replicate 10 0) (1 / 20) 0 (1 / 2)
      (by norm_num) (by norm_num) (by decide) (by decide)).2 0 0 1
      (by decide) (by decide) (by decide) (by decide) (by decide)⟩

/-! ## Claim theorems: ensemble score builder and invalid inputs (C7) -/

/-- C7 counterexample: an example whose loss is NaN does not make the
score-building stage of the robust fitter fail with any error — the
example is silently skipped.  With one NaN-loss example and one valid
example of the same class, the class's score list is exactly the one of
the valid example alone, and the fitter still returns a threshold: the
claim that the builder "fails with InvalidScoreError rather than silently
ignoring the example" is false (no failure state exists in the code). -/
theorem C7_counterexample :
    classScores ⟨fun _ => [1], fun _ => [1], fun _ => none, fun _ _ => 0⟩
        [PyFloat.nan, PyFloat.fin 1] [0, 1] [0, 0] 0 =
      classScores ⟨fun _ => [1], fun _ => [1], fun _ => none, fun _ _ => 0⟩
        [PyFloat.fin 1] [1] [0] 0 ∧
    (fit_evt_models_robust ⟨fun _ => [1], fun _ => [1], fun _ => none, fun _ _ => 0⟩
        [PyFloat.nan, PyFloat.fin 1] [0, 1] [0, 0] (1 / 20)).1 0 =
      some (1 / 2) := by
  decide

/-- C7 (amended): an example whose loss is NaN or Inf is silently skipped
by the robust fitter's score-building stage: it contributes no score to
its class and raises no error, and processing continues with the
remaining examples. -/
theorem C7_invalid_loss_skipped (O : Oracles) (v : PyFloat)
    (hv : v.isInvalid = true) (losses : List PyFloat)
    (sen cls c : Nat) (sentences true_classes : List Nat) :
    classScores O (v :: losses) (sen :: sentences) (cls :: true_classes) c =
      classScores O losses sentences true_classes c := by
  cases v with
  | fin q => simp [PyFloat.isInvalid] at hv
  | nan => rfl
  | inf => rfl
  | ninf => rfl

theorem C7_witness :
    classScores ⟨fun _ => [1], fun _ => [1], fun _ => none, fun _ _ => 0⟩
        [PyFloat.inf, PyFloat.fin 1] [0, 1] [0, 0] 0 =
      classScores ⟨fun _ => [1], fun _ => [1], fun _ => none, fun _ _ => 0⟩
        [PyFloat.fin 1] [1] [0] 0 :=
  C7_invalid_loss_skipped _ PyFloat.inf (by decide) _ _ _ _ _ _

end EnsembleEVT
